import Mathlib

/-!
Verification development for the ET-Hub `ETBus` Arduino library
(`src/ETBus/src/ETBus.cpp`, `src/ETBus/src/ETBus.h`).

The library implements a multicast JSON device bus for ESP32 endpoints:
an `ETBus` object stores four identity strings (`_id`, `_class`, `_name`,
`_fw`) and an optional command callback; `begin` joins the multicast group
and emits a `discover` and a `pong` envelope; `loop` reads one pending UDP
packet (at most 511 bytes into a 512-byte buffer), parses it with
ArduinoJson's `deserializeJson`, rejects envelopes whose `v` member is not
the integer 1 or whose `type` member is missing or empty, answers `ping`
with `pong`, and dispatches `command` envelopes to the registered callback
when the envelope's `id` equals the endpoint's `_id`; the five emitters
(`sendDiscover`, `sendPong`, `sendState`, `sendSwitchState`,
`sendRgbState`) build a JSON document and hand it to `_send`, which
serializes it with `serializeJson` into a 512-byte stack buffer (so at most
511 characters are written, the serialization being truncated beyond that)
and transmits the written bytes over UDP.

The embedding below models JSON documents as the inductive `Json`
(ArduinoJson's integer documents; floats are outside the model), the
ArduinoJson minified serializer and its bounded-nesting deserializer over
`List Char`, the `ETBus` object state, and every member function of the
class.  Observable behaviour (UDP sends and callback invocations) is
recorded as a list of `Effect`s; network transport itself is out of scope,
so an inbound packet is an optional byte list handed to `loop`.
-/

/-! ## Character-level helpers shared by the codec model -/

/-- Whitespace characters skipped by the JSON deserializer. -/
def isWs (c : Char) : Bool :=
  c = ' ' || c = '\n' || c = '\r' || c = '\t'

/-- Drop leading JSON whitespace. -/
def skipWs : List Char → List Char
  | [] => []
  | c :: rest => if isWs c then skipWs rest else c :: rest

/-- Numeric value of a decimal digit character. -/
def digitVal (c : Char) : Nat := c.toNat - 48

/-- Consume a run of decimal digits, accumulating their value. -/
def parseNatAux : Nat → List Char → Nat × List Char
  | acc, [] => (acc, [])
  | acc, c :: rest =>
    if c.isDigit then parseNatAux (10 * acc + digitVal c) rest else (acc, c :: rest)

/-- Parse a non-empty run of decimal digits. -/
def parseNumNat : List Char → Option (Nat × List Char)
  | [] => none
  | c :: rest => if c.isDigit then some (parseNatAux (digitVal c) rest) else none

/-- Parse an optionally negated decimal integer (ArduinoJson integer input;
floating-point syntax is outside this model). -/
def parseNum : List Char → Option (Int × List Char)
  | '-' :: rest => (parseNumNat rest).map (fun p => (-(p.1 : Int), p.2))
  | cs => (parseNumNat cs).map (fun p => ((p.1 : Int), p.2))

/-- Hexadecimal digit value, for `\uXXXX` escapes. -/
def hexVal (c : Char) : Option Nat :=
  if c.isDigit then some (c.toNat - 48)
  else if 'a' ≤ c && c ≤ 'f' then some (c.toNat - 87)
  else if 'A' ≤ c && c ≤ 'F' then some (c.toNat - 55)
  else none

/-- Resolution of a one-character escape sequence, as in ArduinoJson's
`EscapeSequence::unescapeChar`; unknown escapes are a parse error. -/
def unescape (c : Char) : Option Char :=
  if c = '"' then some '"'
  else if c = '\\' then some '\\'
  else if c = '/' then some '/'
  else if c = 'b' then some '\x08'
  else if c = 'f' then some '\x0c'
  else if c = 'n' then some '\n'
  else if c = 'r' then some '\r'
  else if c = 't' then some '\t'
  else none

/-- Parse the body of a quoted JSON string, the opening quote already
consumed: raw characters up to the closing quote, with backslash escapes
resolved (basic-plane `\uXXXX` included). -/
def parseStringBody : List Char → Option (List Char × List Char)
  | [] => none
  | '"' :: rest => some ([], rest)
  | '\\' :: 'u' :: h1 :: h2 :: h3 :: h4 :: rest =>
    match hexVal h1, hexVal h2, hexVal h3, hexVal h4 with
    | some a, some b, some c, some d =>
      (parseStringBody rest).map (fun p =>
        (Char.ofNat (((a * 16 + b) * 16 + c) * 16 + d) :: p.1, p.2))
    | _, _, _, _ => none
  | '\\' :: e :: rest =>
    match unescape e with
    | some c => (parseStringBody rest).map (fun p => (c :: p.1, p.2))
    | none => none
  | c :: rest => (parseStringBody rest).map (fun p => (c :: p.1, p.2))

/-- Decimal digits of `n` prepended to `acc`; `fuel ≥ n` makes the
recursion total without leaving the kernel-reducible fragment. -/
def natCharsFuel : Nat → Nat → List Char → List Char
  | 0, _, acc => acc
  | fuel + 1, n, acc =>
    if n = 0 then acc else natCharsFuel fuel (n / 10) (Nat.digitChar (n % 10) :: acc)

/-- Decimal representation of a natural number. -/
def natChars (n : Nat) : List Char :=
  if n = 0 then ['0'] else natCharsFuel n n []

/-- Decimal representation of an integer, as ArduinoJson serializes
integer variants. -/
def intChars (n : Int) : List Char :=
  if n < 0 then '-' :: natChars n.natAbs else natChars n.toNat

/-- Serialization of one string character, as in ArduinoJson's
`EscapeSequence::escapeChar`: only quote, backslash and the five named
control characters gain a backslash; everything else is written raw. -/
def escapeChar (c : Char) : List Char :=
  if c = '"' then ['\\', '"']
  else if c = '\\' then ['\\', '\\']
  else if c = '\x08' then ['\\', 'b']
  else if c = '\x0c' then ['\\', 'f']
  else if c = '\n' then ['\\', 'n']
  else if c = '\r' then ['\\', 'r']
  else if c = '\t' then ['\\', 't']
  else [c]

/-- Escape every character of a string body. -/
def escapeList : List Char → List Char
  | [] => []
  | c :: rest => escapeChar c ++ escapeList rest

/-- Serialized form of a JSON string, quotes included. -/
def serializeString (s : String) : List Char :=
  '"' :: escapeList s.data ++ ['"']

/-! ## JSON documents

`Json` models an ArduinoJson document: null, booleans, integers, strings
and objects (member lists in insertion order).  Arrays and floats never
occur in the library's own documents and are outside the model; inbound
buffers using them simply fail to decode here, which coincides with the
dispatcher's observable treatment of them (silent discard). -/

mutual
inductive Json where
  | null
  | bool (b : Bool)
  | num (n : Int)
  | str (s : String)
  | obj (ms : JMembers)
inductive JMembers where
  | nil
  | cons (key : String) (value : Json) (tail : JMembers)
end

/-- Look a key up in a member list; first match wins, as in ArduinoJson. -/
def getMember : JMembers → String → Option Json
  | .nil, _ => none
  | .cons k v rest, key => if k = key then some v else getMember rest key

/-- Model of `doc[key]` on a document root: null (absent) unless the root
is an object holding the key. -/
def lookupJ : Json → String → Option Json
  | .obj ms, key => getMember ms key
  | _, _ => none

/-- Number of members in a member list. -/
def memberCount : JMembers → Nat
  | .nil => 0
  | .cons _ _ rest => memberCount rest + 1

/-- Keys of a member list, in order. -/
def memberKeys : JMembers → List String
  | .nil => []
  | .cons k _ rest => k :: memberKeys rest

/-- Concatenation of member lists. -/
def membersAppend : JMembers → JMembers → JMembers
  | .nil, ys => ys
  | .cons k v rest, ys => .cons k v (membersAppend rest ys)

mutual
/-- ArduinoJson's minified `serializeJson` output for a document. -/
def serializeJson : Json → List Char
  | .null => "null".data
  | .bool b => if b then "true".data else "false".data
  | .num n => intChars n
  | .str s => serializeString s
  | .obj ms => '{' :: serializeMembers ms ++ ['}']

/-- Serialized members of an object, comma separated, braces excluded. -/
def serializeMembers : JMembers → List Char
  | .nil => []
  | .cons k v .nil => serializeString k ++ ':' :: serializeJson v
  | .cons k v (.cons k2 v2 tail) =>
      serializeString k ++ ':' :: serializeJson v ++
        ',' :: serializeMembers (.cons k2 v2 tail)
end

mutual
/-- ArduinoJson's `deserializeJson` on one JSON value.  `fuel` only bounds
the recursion (any value above the input length is inert); `depth` models
the deserializer's nesting limit, 10 by default. -/
def parseValue : Nat → Nat → List Char → Option (Json × List Char)
  | 0, _, _ => none
  | fuel + 1, depth, cs =>
    match skipWs cs with
    | '"' :: rest => (parseStringBody rest).map (fun p => (Json.str (String.mk p.1), p.2))
    | 't' :: 'r' :: 'u' :: 'e' :: rest => some (.bool true, rest)
    | 'f' :: 'a' :: 'l' :: 's' :: 'e' :: rest => some (.bool false, rest)
    | 'n' :: 'u' :: 'l' :: 'l' :: rest => some (.null, rest)
    | '{' :: rest =>
      if depth = 0 then none
      else
        match skipWs rest with
        | '}' :: r2 => some (.obj .nil, r2)
        | cs2 => (parseMembers fuel (depth - 1) cs2).map (fun p => (Json.obj p.1, p.2))
    | cs2 => (parseNum cs2).map (fun p => (Json.num p.1, p.2))

/-- Parse the members of an object up to and including the closing brace,
the opening brace already consumed. -/
def parseMembers : Nat → Nat → List Char → Option (JMembers × List Char)
  | 0, _, _ => none
  | fuel + 1, depth, cs =>
    match skipWs cs with
    | '"' :: rest =>
      match parseStringBody rest with
      | none => none
      | some (k, r1) =>
        match skipWs r1 with
        | ':' :: r2 =>
          match parseValue fuel depth r2 with
          | none => none
          | some (v, r3) =>
            match skipWs r3 with
            | ',' :: r4 =>
              match parseMembers fuel depth r4 with
              | some (ms, r5) => some (.cons (String.mk k) v ms, r5)
              | none => none
            | '}' :: r4 => some (.cons (String.mk k) v .nil, r4)
            | _ => none
        | _ => none
    | _ => none
end

/-- Model of `deserializeJson` over a whole buffer: parse one document
(trailing bytes are ignored, as the streaming deserializer stops at the
end of the root value). -/
def parseJson (cs : List Char) : Option Json :=
  (parseValue (cs.length + 1) 10 cs).map (fun p => p.1)

/-! ## The ETBus object -/

/-- Collaborator readings taken while composing a `pong`: `millis()` (the
uptime clock in milliseconds) and `WiFi.RSSI()`. -/
structure Env where
  millis : Nat
  rssi : Int

/-- Observable effects of one operation, in order: a UDP multicast send of
a serialized document, or an invocation of the registered command callback
with `(_class, payload)` exactly as `loop` passes them (`payload` is
`doc["payload"].as<JsonObject>()`, a null object unless the member is an
object). -/
inductive Effect where
  | sent (doc : Json)
  | callback (devClass : Option String) (payload : Option JMembers)

/-- The `ETBus` object state: the four identity pointers and the command
handler slot, each `none` when the C++ member is a null pointer.  The
handler's function body is irrelevant to observable dispatch, so the slot
only records whether a handler is installed. -/
structure ETBus where
  _id : Option String
  _class : Option String
  _name : Option String
  _fw : Option String
  _cmdHandler : Option Unit

/-- A freshly constructed `ETBus()`: all members null. -/
def newETBus : ETBus :=
  { _id := none, _class := none, _name := none, _fw := none, _cmdHandler := none }

/-- `ETBus::onCommand`: store the callback (null included). -/
def ETBus.onCommand (bus : ETBus) (cb : Option Unit) : ETBus :=
  { bus with _cmdHandler := cb }

/-- Null-tolerant embedding of a `const char*` member into a document. -/
def jstrOpt : Option String → Json
  | none => .null
  | some s => .str s

/-- The document built by `ETBus::sendDiscover`. -/
def discoverDoc (bus : ETBus) : Json :=
  .obj (.cons "v" (.num 1) (.cons "type" (.str "discover")
    (.cons "id" (jstrOpt bus._id) (.cons "class" (jstrOpt bus._class)
      (.cons "payload" (.obj (.cons "name" (jstrOpt bus._name)
        (.cons "fw" (jstrOpt bus._fw) .nil))) .nil)))))

/-- `ETBus::sendDiscover`: build the discover document and send it. -/
def ETBus.sendDiscover (bus : ETBus) : List Effect :=
  [.sent (discoverDoc bus)]

/-- The document built by `ETBus::sendPong`: uptime is `millis() / 1000`. -/
def pongDoc (bus : ETBus) (env : Env) : Json :=
  .obj (.cons "v" (.num 1) (.cons "type" (.str "pong")
    (.cons "id" (jstrOpt bus._id) (.cons "class" (jstrOpt bus._class)
      (.cons "payload" (.obj (.cons "uptime" (.num ((env.millis / 1000 : Nat) : Int))
        (.cons "rssi" (.num env.rssi) .nil))) .nil)))))

/-- `ETBus::sendPong`: build the pong document and send it. -/
def ETBus.sendPong (bus : ETBus) (env : Env) : List Effect :=
  [.sent (pongDoc bus env)]

/-- `obj[key] = value` on a member list: overwrite the first member with
that key, or append a new member. -/
def objSet : JMembers → String → Json → JMembers
  | .nil, k, v => .cons k v .nil
  | .cons k' v' rest, k, v =>
    if k' = k then .cons k' v rest else .cons k' v' (objSet rest k v)

/-- The `for (JsonPair kv : payload) p[kv.key()] = kv.value();` copy loop
of `ETBus::sendState`, with accumulator `acc` standing for `p`. -/
def copyInto (acc : JMembers) : JMembers → JMembers
  | .nil => acc
  | .cons k v rest => copyInto (objSet acc k v) rest

/-- Key-by-key copy of a caller-supplied payload into a fresh object. -/
def copyMembers (payload : JMembers) : JMembers :=
  copyInto .nil payload

/-- `ETBus::sendState`: wrap a caller-supplied payload object in a state
envelope, copying the payload key by key, and send it. -/
def ETBus.sendState (bus : ETBus) (payload : JMembers) : List Effect :=
  [.sent (.obj (.cons "v" (.num 1) (.cons "type" (.str "state")
    (.cons "id" (jstrOpt bus._id) (.cons "class" (jstrOpt bus._class)
      (.cons "payload" (.obj (copyMembers payload)) .nil))))))]

/-- `ETBus::sendSwitchState`: build the one-field on/off state document
directly and send it. -/
def ETBus.sendSwitchState (bus : ETBus) (onVal : Bool) : List Effect :=
  [.sent (.obj (.cons "v" (.num 1) (.cons "type" (.str "state")
    (.cons "id" (jstrOpt bus._id) (.cons "class" (jstrOpt bus._class)
      (.cons "payload" (.obj (.cons "on" (.bool onVal) .nil)) .nil))))))]

/-- `ETBus::sendRgbState`: build the five-field color state document
directly and send it; the four `uint8_t` channels are naturals. -/
def ETBus.sendRgbState (bus : ETBus) (onVal : Bool) (r g b brightness : Nat) : List Effect :=
  [.sent (.obj (.cons "v" (.num 1) (.cons "type" (.str "state")
    (.cons "id" (jstrOpt bus._id) (.cons "class" (jstrOpt bus._class)
      (.cons "payload" (.obj (.cons "on" (.bool onVal) (.cons "r" (.num (r : Int))
        (.cons "g" (.num (g : Int)) (.cons "b" (.num (b : Int))
          (.cons "brightness" (.num (brightness : Int)) .nil)))))) .nil))))))]

/-- `ETBus::begin`: store the four identity pointers, join the multicast
group (transport, out of scope), then emit `discover` and `pong`. -/
def ETBus.begin (bus : ETBus) (device_id device_class device_name fw_version : Option String)
    (env : Env) : ETBus × List Effect :=
  let bus' : ETBus := { bus with
    _id := device_id, _class := device_class, _name := device_name, _fw := fw_version }
  (bus', bus'.sendDiscover ++ bus'.sendPong env)

/-- `ETBus::_send`: serialize the document into the 512-byte stack buffer
(`serializeJson` writes at most 511 characters, truncating the rest) and
transmit exactly the written bytes. -/
def _send (doc : Json) : List Char :=
  (serializeJson doc).take 511

/-- The `doc["v"] != 1` guard of `ETBus::loop`, negated: true exactly when
the member is the integer one. -/
def vIsOne (doc : Json) : Bool :=
  match lookupJ doc "v" with
  | some (.num n) => n == 1
  | _ => false

/-- The `doc[key] | ""` read used for `type` and `id`: the string value if
the member is a string, the empty default otherwise. -/
def strField (doc : Json) (key : String) : String :=
  match lookupJ doc key with
  | some (.str s) => s
  | _ => ""

/-- `ETBus::_addrMatchesMe`: the envelope's `id` string is non-empty, the
endpoint's `_id` is non-null, and the two compare equal with `strcmp`. -/
def ETBus._addrMatchesMe (bus : ETBus) (doc : Json) : Bool :=
  let id := strField doc "id"
  if id = "" then false
  else
    match bus._id with
    | none => false
    | some my => id = my

/-- The `doc["payload"].as<JsonObject>()` argument handed to the command
callback: the member list when the member is an object, else a null
object. -/
def payloadArg (doc : Json) : Option JMembers :=
  match lookupJ doc "payload" with
  | some (.obj ms) => some ms
  | _ => none

/-- The dispatch section of `ETBus::loop`, after a document has been
deserialized: reject unless `v` is the integer 1 and `type` is a non-empty
string; answer `ping` with `sendPong`; for `command`, require the address
match and invoke the callback when one is registered; every other type is
ignored. -/
def ETBus.processDoc (bus : ETBus) (env : Env) (doc : Json) : List Effect :=
  if vIsOne doc = false then []
  else
    let t := strField doc "type"
    if t = "" then []
    else if t = "ping" then bus.sendPong env
    else if t = "command" then
      if bus._addrMatchesMe doc = false then []
      else
        match bus._cmdHandler with
        | some _ => [Effect.callback bus._class (payloadArg doc)]
        | none => []
    else []

/-- The inbound decode of `ETBus::loop`: at most 511 bytes of the packet
are read into the stack buffer, then deserialized. -/
def decodeInbound (data : List Char) : Option Json :=
  parseJson (data.take 511)

/-- `ETBus::loop`: process at most one pending packet; no packet, an empty
read or a deserialization failure are silent no-ops. -/
def ETBus.loop (bus : ETBus) (env : Env) (packet : Option (List Char)) : List Effect :=
  match packet with
  | none => []
  | some data =>
    if data.isEmpty then []
    else
      match decodeInbound data with
      | none => []
      | some doc => bus.processDoc env doc

/-! ## Envelopes as the spec describes them -/

/-- Scalar document values (the payload field values of the wire spec). -/
def isScalarJson : Json → Bool
  | .null => true
  | .bool _ => true
  | .num _ => true
  | .str _ => true
  | .obj _ => false

/-- All values of a member list are scalars. -/
def scalarMembers : JMembers → Bool
  | .nil => true
  | .cons _ v rest => isScalarJson v && scalarMembers rest

/-- A wire envelope: version, type, sender or target id, class, and an
optional payload object. -/
structure Envelope where
  v : Int
  etype : String
  eid : String
  eclass : String
  payload : Option JMembers

/-- The document an envelope denotes, members in the order every composer
of the library writes them. -/
def envelopeJson (e : Envelope) : Json :=
  .obj (.cons "v" (.num e.v) (.cons "type" (.str e.etype)
    (.cons "id" (.str e.eid) (.cons "class" (.str e.eclass)
      (match e.payload with
       | none => .nil
       | some pms => .cons "payload" (.obj pms) .nil)))))

/-- Encoding an envelope to wire bytes. -/
def encodeEnvelope (e : Envelope) : List Char :=
  serializeJson (envelopeJson e)

/-- A valid envelope in the sense of the wire spec: version 1, non-empty
type, id and class, and a payload of string keys and scalar values when
present. -/
def validEnvelope (e : Envelope) : Prop :=
  e.v = 1 ∧ e.etype ≠ "" ∧ e.eid ≠ "" ∧ e.eclass ≠ "" ∧
    (match e.payload with
     | none => True
     | some pms => scalarMembers pms = true)

/-! ## Basic lemmas about the codec helpers -/

theorem skipWs_not_ws {c : Char} (h : isWs c = false) (cs : List Char) :
    skipWs (c :: cs) = c :: cs := by
  simp [skipWs, h]

/-- True when the buffer does not start with a decimal digit, so that a
digit run just before it is parsed in full. -/
def leadNonDigit : List Char → Bool
  | [] => true
  | c :: _ => !c.isDigit

theorem parseNatAux_stop {cs : List Char} (h : leadNonDigit cs = true) (acc : Nat) :
    parseNatAux acc cs = (acc, cs) := by
  cases cs with
  | nil => rfl
  | cons c rest =>
    simp only [leadNonDigit, Bool.not_eq_true'] at h
    simp [parseNatAux, h]

theorem natCharsFuel_zero (f : Nat) (acc : List Char) : natCharsFuel f 0 acc = acc := by
  cases f <;> simp [natCharsFuel]

theorem natCharsFuel_congr :
    ∀ f1 f2 n acc, n ≤ f1 → n ≤ f2 → natCharsFuel f1 n acc = natCharsFuel f2 n acc := by
  intro f1
  induction f1 with
  | zero =>
    intro f2 n acc h1 _
    have hn : n = 0 := Nat.le_zero.mp h1
    subst hn
    simp [natCharsFuel_zero, natCharsFuel]
  | succ f ih =>
    intro f2 n acc h1 h2
    by_cases hn : n = 0
    · subst hn; simp [natCharsFuel_zero]
    · obtain ⟨g, rfl⟩ : ∃ g, f2 = g + 1 := ⟨f2 - 1, by omega⟩
      have hdiv : n / 10 < n := Nat.div_lt_self (Nat.pos_of_ne_zero hn) (by norm_num)
      simp only [natCharsFuel, hn, if_false]
      exact ih g (n / 10) _ (by omega) (by omega)

theorem natCharsFuel_acc :
    ∀ f n acc, n ≤ f → natCharsFuel f n acc = natCharsFuel f n [] ++ acc := by
  intro f
  induction f with
  | zero => intro n acc _; simp [natCharsFuel]
  | succ f ih =>
    intro n acc h
    by_cases hn : n = 0
    · subst hn; simp [natCharsFuel_zero]
    · have hdiv : n / 10 < n := Nat.div_lt_self (Nat.pos_of_ne_zero hn) (by norm_num)
      simp only [natCharsFuel, hn, if_false]
      rw [ih (n / 10) _ (by omega), ih (n / 10) [Nat.digitChar (n % 10)] (by omega),
        List.append_assoc]
      rfl

theorem digitChar_isDigit {m : Nat} (h : m < 10) : (Nat.digitChar m).isDigit = true := by
  interval_cases m <;> decide

theorem digitVal_digitChar {m : Nat} (h : m < 10) : digitVal (Nat.digitChar m) = m := by
  interval_cases m <;> decide

theorem natCharsFuel_all_digits :
    ∀ f n acc, (∀ c ∈ acc, c.isDigit = true) → ∀ c ∈ natCharsFuel f n acc, c.isDigit = true := by
  intro f
  induction f with
  | zero => intro n acc hacc; simpa [natCharsFuel] using hacc
  | succ f ih =>
    intro n acc hacc c hc
    by_cases hn : n = 0
    · subst hn; simp only [natCharsFuel, if_true] at hc; exact hacc c hc
    · simp only [natCharsFuel, hn, if_false] at hc
      refine ih (n / 10) _ ?_ c hc
      intro d hd
      rcases List.mem_cons.mp hd with h | h
      · subst h; exact digitChar_isDigit (Nat.mod_lt _ (by norm_num))
      · exact hacc d h

theorem natCharsFuel_ne_nil :
    ∀ f n acc, n ≠ 0 → n ≤ f → natCharsFuel f n acc ≠ [] := by
  intro f
  induction f with
  | zero => intro n acc hn h; omega
  | succ f ih =>
    intro n acc hn h
    have hdiv : n / 10 < n := Nat.div_lt_self (Nat.pos_of_ne_zero hn) (by norm_num)
    simp only [natCharsFuel, hn, if_false]
    by_cases hq : n / 10 = 0
    · rw [hq, natCharsFuel_zero]; simp
    · exact ih (n / 10) _ hq (by omega)

theorem parseNatAux_natCharsFuel :
    ∀ n f tail acc, 0 < n → n ≤ f →
      parseNatAux acc (natCharsFuel f n [] ++ tail) =
        parseNatAux (acc * 10 ^ (natCharsFuel f n []).length + n) tail := by
  intro n
  induction n using Nat.strong_induction_on with
  | _ n ih =>
    intro f tail acc hpos hle
    obtain ⟨g, rfl⟩ : ∃ g, f = g + 1 := ⟨f - 1, by omega⟩
    have hn : n ≠ 0 := by omega
    have hdiv : n / 10 < n := Nat.div_lt_self hpos (by norm_num)
    have hmod : n % 10 < 10 := Nat.mod_lt _ (by norm_num)
    by_cases hq : n / 10 = 0
    · have : natCharsFuel (g + 1) n [] = [Nat.digitChar (n % 10)] := by
        simp [natCharsFuel, hn, hq, natCharsFuel_zero]
      rw [this]
      simp only [List.cons_append, List.nil_append, List.length_cons, List.length_nil]
      rw [parseNatAux]
      simp [digitChar_isDigit hmod, digitVal_digitChar hmod]
      have : n % 10 = n := by omega
      rw [this]
      ring_nf
    · have hrw : natCharsFuel (g + 1) n [] =
          natCharsFuel g (n / 10) [] ++ [Nat.digitChar (n % 10)] := by
        simp only [natCharsFuel, hn, if_false]
        exact natCharsFuel_acc g (n / 10) _ (by omega)
      rw [hrw, List.append_assoc, List.cons_append, List.nil_append]
      rw [ih (n / 10) hdiv g _ acc (Nat.pos_of_ne_zero hq) (by omega)]
      rw [parseNatAux]
      simp only [digitChar_isDigit hmod, if_true, digitVal_digitChar hmod]
      rw [List.length_append, List.length_cons, List.length_nil]
      congr 1
      have h10 : 10 * (n / 10) + n % 10 = n := by omega
      rw [pow_succ]
      calc 10 * (acc * 10 ^ (natCharsFuel g (n / 10) []).length + n / 10) + n % 10
          = acc * (10 ^ (natCharsFuel g (n / 10) []).length * 10) +
              (10 * (n / 10) + n % 10) := by ring
        _ = acc * (10 ^ (natCharsFuel g (n / 10) []).length * 10) + n := by rw [h10]

theorem isDigit_ne_chars {c : Char} (h : c.isDigit = true) :
    c ≠ '"' ∧ c ≠ 't' ∧ c ≠ 'f' ∧ c ≠ 'n' ∧ c ≠ '{' ∧ c ≠ '-' ∧ isWs c = false := by
  refine ⟨?_, ?_, ?_, ?_, ?_, ?_, ?_⟩ <;> first
    | (intro heq; rw [heq] at h; exact absurd h (by decide))
    | (by_cases hws : isWs c = true
       · simp only [isWs, Bool.or_eq_true, decide_eq_true_eq] at hws
         rcases hws with ((rfl | rfl) | rfl) | rfl <;> exact absurd h (by decide)
       · simpa using hws)

theorem parseNumNat_head_digit {c : Char} (h : c.isDigit = true) (rest : List Char) :
    parseNumNat (c :: rest) = some (parseNatAux 0 (c :: rest)) := by
  simp [parseNumNat, parseNatAux, h]

theorem parseNumNat_natChars (n : Nat) {tail : List Char} (htail : leadNonDigit tail = true) :
    parseNumNat (natChars n ++ tail) = some (n, tail) := by
  by_cases hn : n = 0
  · subst hn
    simp only [natChars, if_true, List.cons_append, List.nil_append]
    rw [parseNumNat_head_digit (by decide), parseNatAux]
    simp [digitVal, parseNatAux_stop htail]
  · have hchars : natChars n = natCharsFuel n n [] := by simp [natChars, hn]
    obtain ⟨c, cs, hcons⟩ := List.exists_cons_of_ne_nil
      (hchars ▸ natCharsFuel_ne_nil n n [] hn le_rfl)
    have hdig : c.isDigit = true := by
      refine natCharsFuel_all_digits n n [] (by simp) c ?_
      rw [← hchars, hcons]; simp
    have hparse := parseNatAux_natCharsFuel n n tail 0 (Nat.pos_of_ne_zero hn) le_rfl
    rw [← hchars] at hparse
    rw [hcons, List.cons_append, parseNumNat_head_digit hdig,
      ← List.cons_append, ← hcons, hparse]
    simp [parseNatAux_stop htail]

theorem parseNum_not_neg {c : Char} (h : c ≠ '-') (rest : List Char) :
    parseNum (c :: rest) =
      (parseNumNat (c :: rest)).map (fun p => ((p.1 : Int), p.2)) := by
  rw [parseNum.eq_def]
  split
  · rename_i heq; simp at heq; exact absurd heq.1 h
  · rfl

theorem parseNum_natChars (n : Nat) {tail : List Char} (htail : leadNonDigit tail = true) :
    parseNum (natChars n ++ tail) = some ((n : Int), tail) := by
  by_cases hn : n = 0
  · subst hn
    simp only [natChars, if_true, List.cons_append, List.nil_append]
    rw [parseNum_not_neg (by decide), parseNumNat_head_digit (by decide), parseNatAux]
    simp [digitVal, parseNatAux_stop htail]
  · have hchars : natChars n = natCharsFuel n n [] := by simp [natChars, hn]
    obtain ⟨c, cs, hcons⟩ := List.exists_cons_of_ne_nil
      (hchars ▸ natCharsFuel_ne_nil n n [] hn le_rfl)
    have hdig : c.isDigit = true := by
      refine natCharsFuel_all_digits n n [] (by simp) c ?_
      rw [← hchars, hcons]; simp
    rw [hcons, List.cons_append, parseNum_not_neg (isDigit_ne_chars hdig).2.2.2.2.2.1,
      ← List.cons_append, ← hcons, parseNumNat_natChars n htail]
    rfl

theorem parseNum_intChars (i : Int) {tail : List Char} (htail : leadNonDigit tail = true) :
    parseNum (intChars i ++ tail) = some (i, tail) := by
  by_cases hneg : i < 0
  · simp only [intChars, hneg, if_true, List.cons_append]
    rw [show parseNum ('-' :: (natChars i.natAbs ++ tail)) =
        (parseNumNat (natChars i.natAbs ++ tail)).map (fun p => (-(p.1 : Int), p.2)) from rfl]
    rw [parseNumNat_natChars _ htail]
    show some (-(i.natAbs : Int), tail) = some (i, tail)
    have habs : -(i.natAbs : Int) = i := by omega
    rw [habs]
  · simp only [intChars, hneg, if_false]
    rw [parseNum_natChars _ htail]
    have htn : ((i.toNat : Nat) : Int) = i := by omega
    rw [htn]

theorem parseStringBody_raw {c : Char} (h1 : c ≠ '"') (h2 : c ≠ '\\') (cs : List Char) :
    parseStringBody (c :: cs) = (parseStringBody cs).map (fun p => (c :: p.1, p.2)) := by
  rw [parseStringBody.eq_def]
  split
  · rename_i heq; simp at heq
  · rename_i heq; simp at heq; exact absurd heq.1 h1
  · rename_i heq; simp at heq; exact absurd heq.1 h2
  · rename_i heq; simp at heq; exact absurd heq.1 h2
  · rename_i heq
    injection heq with hc hcs
    subst hc; subst hcs
    rfl

theorem parseStringBody_escapeList (s : List Char) (rest : List Char) :
    parseStringBody (escapeList s ++ '"' :: rest) = some (s, rest) := by
  induction s with
  | nil => rfl
  | cons c cs ih =>
    show parseStringBody ((escapeChar c ++ escapeList cs) ++ '"' :: rest) = _
    rw [List.append_assoc]
    by_cases h1 : c = '"'
    · subst h1
      show parseStringBody ('\\' :: '"' :: (escapeList cs ++ '"' :: rest)) = _
      rw [show ∀ cs', parseStringBody ('\\' :: '"' :: cs') =
          (parseStringBody cs').map (fun p => ('"' :: p.1, p.2)) from fun _ => rfl, ih]
      rfl
    by_cases h2 : c = '\\'
    · subst h2
      show parseStringBody ('\\' :: '\\' :: (escapeList cs ++ '"' :: rest)) = _
      rw [show ∀ cs', parseStringBody ('\\' :: '\\' :: cs') =
          (parseStringBody cs').map (fun p => ('\\' :: p.1, p.2)) from fun _ => rfl, ih]
      rfl
    by_cases h3 : c = '\x08'
    · subst h3
      show parseStringBody ('\\' :: 'b' :: (escapeList cs ++ '"' :: rest)) = _
      rw [show ∀ cs', parseStringBody ('\\' :: 'b' :: cs') =
          (parseStringBody cs').map (fun p => ('\x08' :: p.1, p.2)) from fun _ => rfl, ih]
      rfl
    by_cases h4 : c = '\x0c'
    · subst h4
      show parseStringBody ('\\' :: 'f' :: (escapeList cs ++ '"' :: rest)) = _
      rw [show ∀ cs', parseStringBody ('\\' :: 'f' :: cs') =
          (parseStringBody cs').map (fun p => ('\x0c' :: p.1, p.2)) from fun _ => rfl, ih]
      rfl
    by_cases h5 : c = '\n'
    · subst h5
      show parseStringBody ('\\' :: 'n' :: (escapeList cs ++ '"' :: rest)) = _
      rw [show ∀ cs', parseStringBody ('\\' :: 'n' :: cs') =
          (parseStringBody cs').map (fun p => ('\n' :: p.1, p.2)) from fun _ => rfl, ih]
      rfl
    by_cases h6 : c = '\r'
    · subst h6
      show parseStringBody ('\\' :: 'r' :: (escapeList cs ++ '"' :: rest)) = _
      rw [show ∀ cs', parseStringBody ('\\' :: 'r' :: cs') =
          (parseStringBody cs').map (fun p => ('\r' :: p.1, p.2)) from fun _ => rfl, ih]
      rfl
    by_cases h7 : c = '\t'
    · subst h7
      show parseStringBody ('\\' :: 't' :: (escapeList cs ++ '"' :: rest)) = _
      rw [show ∀ cs', parseStringBody ('\\' :: 't' :: cs') =
          (parseStringBody cs').map (fun p => ('\t' :: p.1, p.2)) from fun _ => rfl, ih]
      rfl
    · show parseStringBody (escapeChar c ++ (escapeList cs ++ '"' :: rest)) = _
      rw [show escapeChar c = [c] by simp [escapeChar, h1, h2, h3, h4, h5, h6, h7]]
      rw [List.cons_append, List.nil_append, parseStringBody_raw h1 h2, ih]
      rfl

theorem parseStringBody_serializeString (s : String) (cs rest : List Char)
    (hcs : cs = escapeList s.data ++ '"' :: rest) :
    parseStringBody cs = some (s.data, rest) := by
  rw [hcs, parseStringBody_escapeList]

/-! ## Round trip of the codec on the documents the library emits -/

theorem parseValue_other {cs : List Char} {c : Char} {rest : List Char}
    (hskip : skipWs cs = c :: rest) (h1 : c ≠ '"') (h2 : c ≠ 't') (h3 : c ≠ 'f')
    (h4 : c ≠ 'n') (h5 : c ≠ '{') (fuel depth : Nat) :
    parseValue (fuel + 1) depth cs =
      (parseNum (c :: rest)).map (fun p => (Json.num p.1, p.2)) := by
  rw [parseValue.eq_def]
  simp only [hskip]
  split
  · rename_i heq; simp at heq; exact absurd heq.1 h1
  · rename_i heq; simp at heq; exact absurd heq.1 h2
  · rename_i heq; simp at heq; exact absurd heq.1 h3
  · rename_i heq; simp at heq; exact absurd heq.1 h4
  · rename_i heq; simp at heq; exact absurd heq.1 h5
  · rfl

theorem parseValue_scalar {v : Json} (hv : isScalarJson v = true) (fuel depth : Nat)
    {tail : List Char} (htail : leadNonDigit tail = true) :
    parseValue (fuel + 1) depth (serializeJson v ++ tail) = some (v, tail) := by
  cases v with
  | null => rfl
  | bool b => cases b <;> rfl
  | str s =>
    have hrw : serializeJson (Json.str s) ++ tail =
        '"' :: (escapeList s.data ++ '"' :: tail) := by
      show ('"' :: escapeList s.data ++ ['"']) ++ tail = _
      simp
    rw [hrw]
    rw [show ∀ body, parseValue (fuel + 1) depth ('"' :: body) =
        (parseStringBody body).map (fun p => (Json.str (String.mk p.1), p.2)) from
      fun _ => rfl]
    rw [parseStringBody_escapeList]
    rfl
  | num n =>
    by_cases hneg : n < 0
    · have hrw : serializeJson (Json.num n) ++ tail =
          '-' :: (natChars n.natAbs ++ tail) := by
        show intChars n ++ tail = _
        simp [intChars, hneg]
      rw [hrw]
      rw [parseValue_other (skipWs_not_ws (by decide) _)
        (by decide) (by decide) (by decide) (by decide) (by decide)]
      rw [show parseNum ('-' :: (natChars n.natAbs ++ tail)) =
          (parseNumNat (natChars n.natAbs ++ tail)).map (fun p => (-(p.1 : Int), p.2)) from rfl]
      rw [parseNumNat_natChars _ htail]
      show some (Json.num (-(n.natAbs : Int)), tail) = _
      have habs : -(n.natAbs : Int) = n := by omega
      rw [habs]
    · have hrw : intChars n = natChars n.toNat := by simp [intChars, hneg]
      have hne : natChars n.toNat ≠ [] := by
        by_cases hz : n.toNat = 0
        · simp [natChars, hz]
        · simp only [natChars, hz, if_false]
          exact natCharsFuel_ne_nil _ _ _ hz le_rfl
      obtain ⟨c, cs, hcons⟩ := List.exists_cons_of_ne_nil hne
      have hdig : c.isDigit = true := by
        by_cases hz : n.toNat = 0
        · rw [hz] at hcons; simp [natChars] at hcons
          rw [← hcons.1]; decide
        · refine natCharsFuel_all_digits n.toNat n.toNat [] (by simp) c ?_
          have hh : natChars n.toNat = natCharsFuel n.toNat n.toNat [] := by
            simp [natChars, hz]
          rw [← hh, hcons]; simp
      obtain ⟨hq, ht', hf', hn', hb', hm', hw'⟩ := isDigit_ne_chars hdig
      rw [show serializeJson (Json.num n) ++ tail = c :: (cs ++ tail) from by
        show intChars n ++ tail = _
        rw [hrw, hcons]; simp]
      rw [parseValue_other (skipWs_not_ws hw' _) hq ht' hf' hn' hb']
      rw [show c :: (cs ++ tail) = natChars n.toNat ++ tail from by rw [hcons]; simp]
      rw [parseNum_natChars _ htail]
      show some (Json.num ((n.toNat : Nat) : Int), tail) = _
      have htn : ((n.toNat : Nat) : Int) = n := by omega
      rw [htn]
  | obj ms => simp [isScalarJson] at hv

theorem parseMembers_key (f depth : Nat) (body : List Char) :
    parseMembers (f + 1) depth ('"' :: body) =
      match parseStringBody body with
      | none => none
      | some (k1, r1) =>
        match skipWs r1 with
        | ':' :: r2 =>
          match parseValue f depth r2 with
          | none => none
          | some (v1, r3) =>
            match skipWs r3 with
            | ',' :: r4 =>
              match parseMembers f depth r4 with
              | some (ms1, r5) => some (.cons (String.mk k1) v1 ms1, r5)
              | none => none
            | '}' :: r4 => some (.cons (String.mk k1) v1 .nil, r4)
            | _ => none
        | _ => none := rfl

theorem parseMembers_cons_last (k : String) (v : Json) (f depth : Nat) (tail : List Char)
    (hv : parseValue f depth (serializeJson v ++ '}' :: tail) = some (v, '}' :: tail)) :
    parseMembers (f + 1) depth (serializeMembers (.cons k v .nil) ++ '}' :: tail) =
      some (.cons k v .nil, tail) := by
  have hin : serializeMembers (.cons k v .nil) ++ '}' :: tail =
      '"' :: (escapeList k.data ++ '"' :: (':' :: (serializeJson v ++ '}' :: tail))) := by
    show (('"' :: escapeList k.data ++ ['"']) ++ ':' :: serializeJson v) ++ '}' :: tail = _
    simp
  rw [hin, parseMembers_key, parseStringBody_escapeList]
  show (match parseValue f depth (serializeJson v ++ '}' :: tail) with
      | none => none
      | some (v1, r3) =>
        match skipWs r3 with
        | ',' :: r4 =>
          match parseMembers f depth r4 with
          | some (ms1, r5) => some (JMembers.cons (String.mk k.data) v1 ms1, r5)
          | none => none
        | '}' :: r4 => some (JMembers.cons (String.mk k.data) v1 .nil, r4)
        | _ => none) = some (JMembers.cons k v .nil, tail)
  rw [hv]
  rfl

theorem parseMembers_cons_more (k : String) (v : Json) (k2 : String) (v2 : Json)
    (ms2 : JMembers) (f depth : Nat) (tail : List Char)
    (hv : parseValue f depth
        (serializeJson v ++ ',' :: (serializeMembers (.cons k2 v2 ms2) ++ '}' :: tail)) =
      some (v, ',' :: (serializeMembers (.cons k2 v2 ms2) ++ '}' :: tail)))
    (hrest : parseMembers f depth (serializeMembers (.cons k2 v2 ms2) ++ '}' :: tail) =
      some (.cons k2 v2 ms2, tail)) :
    parseMembers (f + 1) depth
        (serializeMembers (.cons k v (.cons k2 v2 ms2)) ++ '}' :: tail) =
      some (.cons k v (.cons k2 v2 ms2), tail) := by
  have hin : serializeMembers (.cons k v (.cons k2 v2 ms2)) ++ '}' :: tail =
      '"' :: (escapeList k.data ++ '"' :: (':' :: (serializeJson v ++
        ',' :: (serializeMembers (.cons k2 v2 ms2) ++ '}' :: tail)))) := by
    show ((('"' :: escapeList k.data ++ ['"']) ++ ':' :: serializeJson v) ++
        ',' :: serializeMembers (.cons k2 v2 ms2)) ++ '}' :: tail = _
    simp
  rw [hin, parseMembers_key, parseStringBody_escapeList]
  show (match parseValue f depth (serializeJson v ++
        ',' :: (serializeMembers (.cons k2 v2 ms2) ++ '}' :: tail)) with
      | none => none
      | some (v1, r3) =>
        match skipWs r3 with
        | ',' :: r4 =>
          match parseMembers f depth r4 with
          | some (ms1, r5) => some (JMembers.cons (String.mk k.data) v1 ms1, r5)
          | none => none
        | '}' :: r4 => some (JMembers.cons (String.mk k.data) v1 .nil, r4)
        | _ => none) = some (JMembers.cons k v (.cons k2 v2 ms2), tail)
  rw [hv]
  show (match parseMembers f depth (serializeMembers (.cons k2 v2 ms2) ++ '}' :: tail) with
      | some (ms1, r5) => some (JMembers.cons (String.mk k.data) v ms1, r5)
      | none => none) = some (JMembers.cons k v (.cons k2 v2 ms2), tail)
  rw [hrest]

theorem parseMembers_scalar :
    ∀ (bound : Nat) (ms : JMembers) (fuel depth : Nat) (tail : List Char),
      memberCount ms ≤ bound → ms ≠ .nil → scalarMembers ms = true →
      memberCount ms + 1 ≤ fuel →
      parseMembers fuel depth (serializeMembers ms ++ '}' :: tail) = some (ms, tail) := by
  intro bound
  induction bound with
  | zero =>
    intro ms fuel depth tail hcount hne _ _
    cases ms with
    | nil => exact absurd rfl hne
    | cons k v rest => simp [memberCount] at hcount
  | succ b ih =>
    intro ms fuel depth tail hcount hne hscalar hfuel
    cases ms with
    | nil => exact absurd rfl hne
    | cons k v rest =>
      obtain ⟨hvscalar, hrscalar⟩ : isScalarJson v = true ∧ scalarMembers rest = true := by
        simpa [scalarMembers] using hscalar
      cases rest with
      | nil =>
        obtain ⟨f, rfl⟩ : ∃ f, fuel = f + 1 := ⟨fuel - 1, by
          simp [memberCount] at hfuel; omega⟩
        obtain ⟨f', rfl⟩ : ∃ f', f = f' + 1 := ⟨f - 1, by
          simp [memberCount] at hfuel; omega⟩
        exact parseMembers_cons_last k v _ depth tail
          (parseValue_scalar hvscalar f' depth rfl)
      | cons k2 v2 ms2 =>
        obtain ⟨f, rfl⟩ : ∃ f, fuel = f + 1 := ⟨fuel - 1, by
          simp [memberCount] at hfuel; omega⟩
        obtain ⟨f', rfl⟩ : ∃ f', f = f' + 1 := ⟨f - 1, by
          simp [memberCount] at hfuel; omega⟩
        refine parseMembers_cons_more k v k2 v2 ms2 _ depth tail
          (parseValue_scalar hvscalar f' depth rfl) ?_
        refine ih (.cons k2 v2 ms2) _ depth tail ?_ (by simp) hrscalar ?_
        · simp [memberCount] at hcount ⊢; omega
        · simp [memberCount] at hfuel ⊢; omega

theorem parseValue_obj_scalar (pms : JMembers) (hscalar : scalarMembers pms = true)
    (fuel depth : Nat) (tail : List Char) (hfuel : memberCount pms + 2 ≤ fuel)
    (hdepth : 1 ≤ depth) :
    parseValue fuel depth (serializeJson (.obj pms) ++ tail) = some (.obj pms, tail) := by
  obtain ⟨f, rfl⟩ : ∃ f, fuel = f + 1 := ⟨fuel - 1, by omega⟩
  have hin : serializeJson (Json.obj pms) ++ tail =
      '{' :: (serializeMembers pms ++ '}' :: tail) := by
    show ('{' :: serializeMembers pms ++ ['}']) ++ tail = _
    simp
  rw [hin]
  show (if depth = 0 then none
    else
      match skipWs (serializeMembers pms ++ '}' :: tail) with
      | '}' :: r2 => some (Json.obj .nil, r2)
      | cs2 => (parseMembers f (depth - 1) cs2).map (fun p => (Json.obj p.1, p.2))) =
    some (Json.obj pms, tail)
  rw [if_neg (by omega)]
  cases pms with
  | nil => rfl
  | cons k v rest =>
    obtain ⟨body, hbody⟩ : ∃ body,
        serializeMembers (.cons k v rest) ++ '}' :: tail = '"' :: body := by
      cases rest with
      | nil =>
        refine ⟨escapeList k.data ++ '"' :: (':' :: (serializeJson v ++ '}' :: tail)), ?_⟩
        show (('"' :: escapeList k.data ++ ['"']) ++ ':' :: serializeJson v) ++ '}' :: tail = _
        simp
      | cons k2 v2 ms2 =>
        refine ⟨escapeList k.data ++ '"' :: (':' :: (serializeJson v ++
          ',' :: (serializeMembers (.cons k2 v2 ms2) ++ '}' :: tail))), ?_⟩
        show ((('"' :: escapeList k.data ++ ['"']) ++ ':' :: serializeJson v) ++
          ',' :: serializeMembers (.cons k2 v2 ms2)) ++ '}' :: tail = _
        simp
    rw [hbody]
    show (parseMembers f (depth - 1) ('"' :: body)).map (fun p => (Json.obj p.1, p.2)) =
      some (Json.obj (.cons k v rest), tail)
    rw [← hbody, parseMembers_scalar (memberCount (JMembers.cons k v rest))
      (.cons k v rest) f (depth - 1) tail le_rfl (by simp) hscalar (by
        simp [memberCount] at hfuel ⊢; omega)]
    rfl

theorem parseValue_obj_of_members (ms : JMembers) (f depth : Nat) (tail : List Char)
    (hdepth : depth ≠ 0) (hne : ms ≠ .nil)
    (hms : parseMembers f (depth - 1) (serializeMembers ms ++ '}' :: tail) = some (ms, tail)) :
    parseValue (f + 1) depth (serializeJson (.obj ms) ++ tail) = some (.obj ms, tail) := by
  have hin : serializeJson (Json.obj ms) ++ tail =
      '{' :: (serializeMembers ms ++ '}' :: tail) := by
    show ('{' :: serializeMembers ms ++ ['}']) ++ tail = _
    simp
  rw [hin]
  show (if depth = 0 then none
    else
      match skipWs (serializeMembers ms ++ '}' :: tail) with
      | '}' :: r2 => some (Json.obj .nil, r2)
      | cs2 => (parseMembers f (depth - 1) cs2).map (fun p => (Json.obj p.1, p.2))) =
    some (Json.obj ms, tail)
  rw [if_neg hdepth]
  cases ms with
  | nil => exact absurd rfl hne
  | cons k v rest =>
    obtain ⟨body, hbody⟩ : ∃ body,
        serializeMembers (.cons k v rest) ++ '}' :: tail = '"' :: body := by
      cases rest with
      | nil =>
        refine ⟨escapeList k.data ++ '"' :: (':' :: (serializeJson v ++ '}' :: tail)), ?_⟩
        show (('"' :: escapeList k.data ++ ['"']) ++ ':' :: serializeJson v) ++ '}' :: tail = _
        simp
      | cons k2 v2 ms2 =>
        refine ⟨escapeList k.data ++ '"' :: (':' :: (serializeJson v ++
          ',' :: (serializeMembers (.cons k2 v2 ms2) ++ '}' :: tail))), ?_⟩
        show ((('"' :: escapeList k.data ++ ['"']) ++ ':' :: serializeJson v) ++
          ',' :: serializeMembers (.cons k2 v2 ms2)) ++ '}' :: tail = _
        simp
    rw [hbody]
    show (parseMembers f (depth - 1) ('"' :: body)).map (fun p => (Json.obj p.1, p.2)) =
      some (Json.obj (.cons k v rest), tail)
    rw [← hbody, hms]
    rfl

/-- Number of payload members of an envelope. -/
def payloadCount (e : Envelope) : Nat :=
  match e.payload with
  | none => 0
  | some pms => memberCount pms

theorem parseValue_envelope (e : Envelope) (fuel depth : Nat) (tail : List Char)
    (hscalar : ∀ pms, e.payload = some pms → scalarMembers pms = true)
    (hfuel : payloadCount e + 8 ≤ fuel) (hdepth : 2 ≤ depth) :
    parseValue fuel depth (encodeEnvelope e ++ tail) = some (envelopeJson e, tail) := by
  rw [show encodeEnvelope e = serializeJson (envelopeJson e) from rfl]
  cases hpl : e.payload with
  | none =>
    have htop : envelopeJson e =
        .obj (.cons "v" (.num e.v) (.cons "type" (.str e.etype)
          (.cons "id" (.str e.eid) (.cons "class" (.str e.eclass) .nil)))) := by
      rw [envelopeJson, hpl]
    rw [htop]
    refine parseValue_obj_scalar
      (.cons "v" (.num e.v) (.cons "type" (.str e.etype)
        (.cons "id" (.str e.eid) (.cons "class" (.str e.eclass) .nil))))
      rfl fuel depth tail ?_ (by omega)
    simp only [payloadCount, hpl] at hfuel
    simp [memberCount]
    omega
  | some pms =>
    have hsc : scalarMembers pms = true := hscalar pms hpl
    obtain ⟨m, rfl⟩ : ∃ m, fuel = m + 6 := by
      refine ⟨fuel - 6, ?_⟩
      simp only [payloadCount, hpl] at hfuel
      omega
    have hm : memberCount pms + 2 ≤ m := by
      simp only [payloadCount, hpl] at hfuel
      omega
    have htop : envelopeJson e =
        .obj (.cons "v" (.num e.v) (.cons "type" (.str e.etype)
          (.cons "id" (.str e.eid) (.cons "class" (.str e.eclass)
            (.cons "payload" (.obj pms) .nil))))) := by
      rw [envelopeJson, hpl]
    rw [htop]
    have h5 : parseMembers (m + 1) (depth - 1)
        (serializeMembers (.cons "payload" (.obj pms) .nil) ++ '}' :: tail) =
        some (.cons "payload" (.obj pms) .nil, tail) :=
      parseMembers_cons_last _ _ m _ tail
        (parseValue_obj_scalar pms hsc m (depth - 1) ('}' :: tail) hm (by omega))
    have h4 : parseMembers (m + 2) (depth - 1)
        (serializeMembers (.cons "class" (.str e.eclass)
          (.cons "payload" (.obj pms) .nil)) ++ '}' :: tail) =
        some (.cons "class" (.str e.eclass) (.cons "payload" (.obj pms) .nil), tail) :=
      parseMembers_cons_more _ _ _ _ _ (m + 1) _ tail
        (parseValue_scalar (v := .str e.eclass) rfl m (depth - 1) rfl) h5
    have h3 : parseMembers (m + 3) (depth - 1)
        (serializeMembers (.cons "id" (.str e.eid) (.cons "class" (.str e.eclass)
          (.cons "payload" (.obj pms) .nil))) ++ '}' :: tail) =
        some (.cons "id" (.str e.eid) (.cons "class" (.str e.eclass)
          (.cons "payload" (.obj pms) .nil)), tail) :=
      parseMembers_cons_more _ _ _ _ _ (m + 2) _ tail
        (parseValue_scalar (v := .str e.eid) rfl (m + 1) (depth - 1) rfl) h4
    have h2 : parseMembers (m + 4) (depth - 1)
        (serializeMembers (.cons "type" (.str e.etype) (.cons "id" (.str e.eid)
          (.cons "class" (.str e.eclass) (.cons "payload" (.obj pms) .nil)))) ++
          '}' :: tail) =
        some (.cons "type" (.str e.etype) (.cons "id" (.str e.eid)
          (.cons "class" (.str e.eclass) (.cons "payload" (.obj pms) .nil))), tail) :=
      parseMembers_cons_more _ _ _ _ _ (m + 3) _ tail
        (parseValue_scalar (v := .str e.etype) rfl (m + 2) (depth - 1) rfl) h3
    have h1 : parseMembers (m + 5) (depth - 1)
        (serializeMembers (.cons "v" (.num e.v) (.cons "type" (.str e.etype)
          (.cons "id" (.str e.eid) (.cons "class" (.str e.eclass)
            (.cons "payload" (.obj pms) .nil))))) ++ '}' :: tail) =
        some (.cons "v" (.num e.v) (.cons "type" (.str e.etype)
          (.cons "id" (.str e.eid) (.cons "class" (.str e.eclass)
            (.cons "payload" (.obj pms) .nil)))), tail) :=
      parseMembers_cons_more _ _ _ _ _ (m + 4) _ tail
        (parseValue_scalar (v := .num e.v) rfl (m + 3) (depth - 1) rfl) h2
    exact parseValue_obj_of_members _ (m + 5) depth tail (by omega) (by simp) h1

theorem natChars_ne_nil (n : Nat) : natChars n ≠ [] := by
  by_cases hz : n = 0
  · simp [natChars, hz]
  · simp only [natChars, hz, if_false]
    exact natCharsFuel_ne_nil _ _ _ hz le_rfl

theorem intChars_length_pos (i : Int) : 1 ≤ (intChars i).length := by
  by_cases hneg : i < 0
  · simp [intChars, hneg]
  · simp only [intChars, hneg, if_false]
    have := natChars_ne_nil i.toNat
    cases h : natChars i.toNat with
    | nil => exact absurd h this
    | cons c cs => simp

theorem serializeString_length_ge (s : String) : 2 ≤ (serializeString s).length := by
  simp [serializeString]

theorem serializeMembers_length_ge :
    ∀ (bound : Nat) (ms : JMembers), memberCount ms ≤ bound →
      memberCount ms ≤ (serializeMembers ms).length := by
  intro bound
  induction bound with
  | zero =>
    intro ms hcount
    cases ms with
    | nil => simp [memberCount]
    | cons k v rest => simp [memberCount] at hcount
  | succ b ih =>
    intro ms hcount
    cases ms with
    | nil => simp [memberCount]
    | cons k v rest =>
      cases rest with
      | nil =>
        have hk := serializeString_length_ge k
        show memberCount (.cons k v .nil) ≤ (serializeString k ++ ':' :: serializeJson v).length
        simp [memberCount]
        omega
      | cons k2 v2 ms2 =>
        have hk := serializeString_length_ge k
        have hrest := ih (.cons k2 v2 ms2) (by simp [memberCount] at hcount ⊢; omega)
        show memberCount (.cons k v (.cons k2 v2 ms2)) ≤
          (serializeString k ++ ':' :: serializeJson v ++
            ',' :: serializeMembers (.cons k2 v2 ms2)).length
        simp [memberCount] at hrest ⊢
        omega

theorem encode_length_ge (e : Envelope) : payloadCount e + 7 ≤ (encodeEnvelope e).length := by
  have hv := intChars_length_pos e.v
  have ht := serializeString_length_ge "type"
  have hts := serializeString_length_ge e.etype
  cases hpl : e.payload with
  | none =>
    have hrw : encodeEnvelope e =
        '{' :: (serializeString "v" ++ ':' :: intChars e.v ++
          ',' :: (serializeString "type" ++ ':' :: serializeString e.etype ++
            ',' :: (serializeString "id" ++ ':' :: serializeString e.eid ++
              ',' :: (serializeString "class" ++ ':' :: serializeString e.eclass)))) ++
          ['}'] := by
      rw [encodeEnvelope, envelopeJson, hpl]
      rfl
    rw [hrw]
    simp only [payloadCount, hpl, List.length_cons, List.length_append]
    simp
    omega
  | some pms =>
    have hpms := serializeMembers_length_ge (memberCount pms) pms le_rfl
    have hrw : encodeEnvelope e =
        '{' :: (serializeString "v" ++ ':' :: intChars e.v ++
          ',' :: (serializeString "type" ++ ':' :: serializeString e.etype ++
            ',' :: (serializeString "id" ++ ':' :: serializeString e.eid ++
              ',' :: (serializeString "class" ++ ':' :: serializeString e.eclass ++
                ',' :: (serializeString "payload" ++ ':' ::
                  ('{' :: serializeMembers pms ++ ['}'])))))) ++ ['}'] := by
      rw [encodeEnvelope, envelopeJson, hpl]
      rfl
    rw [hrw]
    simp only [payloadCount, hpl, List.length_cons, List.length_append]
    simp
    omega

theorem parseJson_encode (e : Envelope)
    (hscalar : ∀ pms, e.payload = some pms → scalarMembers pms = true) :
    parseJson (encodeEnvelope e) = some (envelopeJson e) := by
  rw [parseJson]
  have henv := parseValue_envelope e ((encodeEnvelope e).length + 1) 10 []
    hscalar (by have := encode_length_ge e; omega) (by omega)
  rw [List.append_nil] at henv
  rw [henv]
  rfl

/-! ## The payload copy of `sendState` on duplicate-free payloads -/

theorem membersAppend_nil_left (ms : JMembers) : membersAppend .nil ms = ms := rfl

theorem memberKeys_objSet :
    ∀ (bound : Nat) (acc : JMembers), memberCount acc ≤ bound → ∀ (k : String) (v : Json),
      k ∉ memberKeys acc →
      objSet acc k v = membersAppend acc (.cons k v .nil) := by
  intro bound
  induction bound with
  | zero =>
    intro acc hcount k v hk
    cases acc with
    | nil => rfl
    | cons k' v' rest => simp [memberCount] at hcount
  | succ b ih =>
    intro acc hcount k v hk
    cases acc with
    | nil => rfl
    | cons k' v' rest =>
      have hne : k' ≠ k := by
        intro heq
        exact hk (by simp [memberKeys, heq])
      show (if k' = k then JMembers.cons k' v rest
        else .cons k' v' (objSet rest k v)) = _
      rw [if_neg hne]
      show JMembers.cons k' v' (objSet rest k v) =
        .cons k' v' (membersAppend rest (.cons k v .nil))
      rw [ih rest (by simp [memberCount] at hcount; omega) k v
        (by intro hmem; exact hk (by simp [memberKeys, hmem]))]

theorem memberKeys_membersAppend :
    ∀ (bound : Nat) (a : JMembers), memberCount a ≤ bound → ∀ b,
      memberKeys (membersAppend a b) = memberKeys a ++ memberKeys b := by
  intro bound
  induction bound with
  | zero =>
    intro a hcount b
    cases a with
    | nil => simp [membersAppend, memberKeys]
    | cons k v rest => simp [memberCount] at hcount
  | succ n ih =>
    intro a hcount b
    cases a with
    | nil => simp [membersAppend, memberKeys]
    | cons k v rest =>
      show memberKeys (.cons k v (membersAppend rest b)) = _
      simp only [memberKeys, List.cons_append]
      rw [ih rest (by simp [memberCount] at hcount; omega) b]

theorem membersAppend_assoc :
    ∀ (bound : Nat) (a : JMembers), memberCount a ≤ bound → ∀ b c,
      membersAppend (membersAppend a b) c = membersAppend a (membersAppend b c) := by
  intro bound
  induction bound with
  | zero =>
    intro a hcount b c
    cases a with
    | nil => rfl
    | cons k v rest => simp [memberCount] at hcount
  | succ n ih =>
    intro a hcount b c
    cases a with
    | nil => rfl
    | cons k v rest =>
      show JMembers.cons k v (membersAppend (membersAppend rest b) c) =
        .cons k v (membersAppend rest (membersAppend b c))
      rw [ih rest (by simp [memberCount] at hcount; omega) b c]

theorem membersAppend_nil_right :
    ∀ (bound : Nat) (a : JMembers), memberCount a ≤ bound → membersAppend a .nil = a := by
  intro bound
  induction bound with
  | zero =>
    intro a hcount
    cases a with
    | nil => rfl
    | cons k v rest => simp [memberCount] at hcount
  | succ n ih =>
    intro a hcount
    cases a with
    | nil => rfl
    | cons k v rest =>
      show JMembers.cons k v (membersAppend rest .nil) = .cons k v rest
      rw [ih rest (by simp [memberCount] at hcount; omega)]

theorem copyInto_of_nodup :
    ∀ (bound : Nat) (ms : JMembers), memberCount ms ≤ bound →
      ∀ acc, (memberKeys ms).Nodup → (∀ k ∈ memberKeys ms, k ∉ memberKeys acc) →
      copyInto acc ms = membersAppend acc ms := by
  intro bound
  induction bound with
  | zero =>
    intro ms hcount acc _ _
    cases ms with
    | nil =>
      show acc = membersAppend acc .nil
      exact (membersAppend_nil_right (memberCount acc) acc le_rfl).symm
    | cons k v rest => simp [memberCount] at hcount
  | succ n ih =>
    intro ms hcount acc hnodup hdisj
    cases ms with
    | nil =>
      show acc = membersAppend acc .nil
      exact (membersAppend_nil_right (memberCount acc) acc le_rfl).symm
    | cons k v rest =>
      show copyInto (objSet acc k v) rest = _
      have hknotin : k ∉ memberKeys acc := hdisj k (by simp [memberKeys])
      rw [memberKeys_objSet (memberCount acc) acc le_rfl k v hknotin]
      have hkeys : memberKeys (membersAppend acc (.cons k v .nil)) =
          memberKeys acc ++ [k] := by
        rw [memberKeys_membersAppend (memberCount acc) acc le_rfl]
        rfl
      rw [ih rest (by simp [memberCount] at hcount; omega) _
        (by simp [memberKeys] at hnodup; exact hnodup.2)
        (by
          intro k' hk'
          rw [hkeys]
          simp only [List.mem_append, List.mem_singleton]
          rintro (hin | rfl)
          · exact hdisj k' (by simp [memberKeys, hk']) hin
          · simp [memberKeys] at hnodup
            exact hnodup.1 hk')]
      rw [membersAppend_assoc (memberCount acc) acc le_rfl]
      rfl

theorem copyMembers_of_nodup (ms : JMembers) (hnodup : (memberKeys ms).Nodup) :
    copyMembers ms = ms := by
  rw [copyMembers, copyInto_of_nodup (memberCount ms) ms le_rfl .nil hnodup (by simp [memberKeys])]
  rfl

/-! ## Dispatch characterizations -/

theorem addrMatchesMe_iff (bus : ETBus) (doc : Json) :
    bus._addrMatchesMe doc = true ↔
      (strField doc "id" ≠ "" ∧ bus._id = some (strField doc "id")) := by
  unfold ETBus._addrMatchesMe
  by_cases hid : strField doc "id" = ""
  · simp [hid]
  · simp only [hid, if_false]
    cases h : bus._id with
    | none =>
      constructor
      · intro hfalse; exact absurd hfalse (by simp)
      · rintro ⟨_, heq⟩; exact Option.noConfusion heq
    | some my =>
      simp only [decide_eq_true_eq]
      constructor
      · rintro rfl; exact ⟨hid, rfl⟩
      · rintro ⟨_, heq⟩; exact (Option.some.injEq _ _ ▸ heq).symm

/-- C1: an inbound `command` envelope that passes the version and type
checks of `loop` invokes the registered callback exactly when its `id`
string is non-empty, the endpoint's `_id` is set, and the two are equal
byte for byte; on any other `id` the dispatch has no observable effect. -/
theorem loop_command_dispatch_iff (bus : ETBus) (env : Env) (doc : Json)
    (hreg : bus._cmdHandler = some ())
    (hv : vIsOne doc = true)
    (ht : strField doc "type" = "command") :
    bus.processDoc env doc =
      if strField doc "id" ≠ "" ∧ bus._id = some (strField doc "id")
      then [Effect.callback bus._class (payloadArg doc)]
      else [] := by
  unfold ETBus.processDoc
  by_cases hmatch : strField doc "id" ≠ "" ∧ bus._id = some (strField doc "id")
  · have haddr : bus._addrMatchesMe doc = true := (addrMatchesMe_iff bus doc).mpr hmatch
    simp [hv, ht, haddr, hreg, hmatch]
  · have haddr : bus._addrMatchesMe doc = false := by
      cases hb : bus._addrMatchesMe doc with
      | false => rfl
      | true => exact absurd ((addrMatchesMe_iff bus doc).mp hb) hmatch
    simp [hv, ht, haddr, hmatch]

/-- C2: an inbound buffer that decodes to a document whose `v` member is
not the integer 1, or whose `type` member is missing, non-string or empty,
makes one `loop` invocation a silent no-op. -/
theorem loop_rejects_bad_version_or_type (bus : ETBus) (env : Env)
    (buf : List Char) (doc : Json)
    (hdec : decodeInbound buf = some doc)
    (hbad : vIsOne doc = false ∨ strField doc "type" = "") :
    bus.loop env (some buf) = [] := by
  unfold ETBus.loop
  by_cases hempty : buf.isEmpty
  · simp [hempty]
  · simp only [hempty, if_false, Bool.false_eq_true]
    rw [hdec]
    show bus.processDoc env doc = []
    unfold ETBus.processDoc
    rcases hbad with hb | hb
    · simp [hb]
    · by_cases hvv : vIsOne doc = false
      · simp [hvv]
      · simp [hvv, hb]

/-- C3: an inbound envelope with `v = 1` and type `ping` — whatever its
`id` and `class` members, with no address check — makes `loop` emit
exactly one `pong` document carrying the endpoint's own identity and an
`uptime`/`rssi` payload. -/
theorem loop_ping_answers_pong (bus : ETBus) (env : Env) (doc : Json)
    (i c : String) (hid : bus._id = some i) (hcls : bus._class = some c)
    (hv : vIsOne doc = true) (ht : strField doc "type" = "ping") :
    bus.processDoc env doc =
      [Effect.sent (.obj (.cons "v" (.num 1) (.cons "type" (.str "pong")
        (.cons "id" (.str i) (.cons "class" (.str c)
          (.cons "payload" (.obj (.cons "uptime" (.num ((env.millis / 1000 : Nat) : Int))
            (.cons "rssi" (.num env.rssi) .nil))) .nil))))))] := by
  unfold ETBus.processDoc
  simp [hv, ht, ETBus.sendPong, pongDoc, jstrOpt, hid, hcls]

/-- C4: `sendState` emits exactly one `state` envelope wrapping the
endpoint's identity and a key-by-key copy of the caller's payload; for a
duplicate-free payload the copy is the payload itself. -/
theorem sendState_emits_state_envelope (bus : ETBus) (i c : String) (payload : JMembers)
    (hid : bus._id = some i) (hcls : bus._class = some c)
    (hnodup : (memberKeys payload).Nodup) :
    bus.sendState payload =
      [Effect.sent (.obj (.cons "v" (.num 1) (.cons "type" (.str "state")
        (.cons "id" (.str i) (.cons "class" (.str c)
          (.cons "payload" (.obj payload) .nil))))))] := by
  unfold ETBus.sendState
  rw [copyMembers_of_nodup payload hnodup, hid, hcls]
  rfl

/-- C5: the typed convenience emitters are pure payload presets over
`sendState` — each sends exactly the envelope `sendState` sends on the
corresponding fixed-field payload. -/
theorem typed_emitters_are_presets (bus : ETBus) (onVal : Bool) (r g b brightness : Nat) :
    bus.sendSwitchState onVal = bus.sendState (.cons "on" (.bool onVal) .nil) ∧
    bus.sendRgbState onVal r g b brightness =
      bus.sendState (.cons "on" (.bool onVal) (.cons "r" (.num (r : Int))
        (.cons "g" (.num (g : Int)) (.cons "b" (.num (b : Int))
          (.cons "brightness" (.num (brightness : Int)) .nil))))) := by
  constructor <;> rfl

/-- Shape every outbound envelope of an initialized endpoint satisfies:
one sent document with `v = 1`, the endpoint's own `id` and `class`, and
a `type` among the three the library emits. -/
def ownTagged (i c : String) (effects : List Effect) : Prop :=
  ∃ d, effects = [Effect.sent d] ∧ lookupJ d "v" = some (.num 1) ∧
    lookupJ d "id" = some (.str i) ∧ lookupJ d "class" = some (.str c) ∧
    ∃ t, lookupJ d "type" = some (.str t) ∧ (t = "discover" ∨ t = "pong" ∨ t = "state")

/-- C8: each of the five emitters sends exactly one envelope carrying
`v = 1`, the endpoint's own `id` and `class`, and a type drawn from
`discover`, `pong`, `state`. -/
theorem emitters_carry_identity (bus : ETBus) (env : Env) (payload : JMembers)
    (onVal : Bool) (r g b brightness : Nat) (i c : String)
    (hid : bus._id = some i) (hcls : bus._class = some c) :
    ownTagged i c bus.sendDiscover ∧ ownTagged i c (bus.sendPong env) ∧
    ownTagged i c (bus.sendState payload) ∧ ownTagged i c (bus.sendSwitchState onVal) ∧
    ownTagged i c (bus.sendRgbState onVal r g b brightness) := by
  refine ⟨⟨discoverDoc bus, rfl, ?_, ?_, ?_, "discover", ?_, Or.inl rfl⟩,
    ⟨pongDoc bus env, rfl, ?_, ?_, ?_, "pong", ?_, Or.inr (Or.inl rfl)⟩,
    ⟨_, rfl, ?_, ?_, ?_, "state", ?_, Or.inr (Or.inr rfl)⟩,
    ⟨_, rfl, ?_, ?_, ?_, "state", ?_, Or.inr (Or.inr rfl)⟩,
    ⟨_, rfl, ?_, ?_, ?_, "state", ?_, Or.inr (Or.inr rfl)⟩⟩ <;>
  simp [discoverDoc, pongDoc, lookupJ, getMember, jstrOpt, hid, hcls]

/-- C9: `begin` stores the four identity strings and emits exactly two
envelopes in order — the `discover` announcement with the `name`/`fw`
payload, then a `pong`. -/
theorem begin_emits_discover_then_pong (bus : ETBus) (env : Env) (i c n f : String) :
    bus.begin (some i) (some c) (some n) (some f) env =
      ({ bus with _id := some i, _class := some c, _name := some n, _fw := some f },
       [Effect.sent (.obj (.cons "v" (.num 1) (.cons "type" (.str "discover")
          (.cons "id" (.str i) (.cons "class" (.str c)
            (.cons "payload" (.obj (.cons "name" (.str n) (.cons "fw" (.str f) .nil)))
              .nil)))))),
        Effect.sent (.obj (.cons "v" (.num 1) (.cons "type" (.str "pong")
          (.cons "id" (.str i) (.cons "class" (.str c)
            (.cons "payload" (.obj (.cons "uptime" (.num ((env.millis / 1000 : Nat) : Int))
              (.cons "rssi" (.num env.rssi) .nil))) .nil))))))]) := rfl

/-- C10: storing a null callback un-registers the handler, and a matching
inbound `command` envelope is then silently discarded, exactly as in the
never-registered state. -/
theorem onCommand_null_unregisters (bus : ETBus) (env : Env) (doc : Json)
    (hv : vIsOne doc = true) (ht : strField doc "type" = "command")
    (hmatch : bus._addrMatchesMe doc = true) :
    bus.onCommand none = { bus with _cmdHandler := none } ∧
    (bus.onCommand none).processDoc env doc = [] := by
  refine ⟨rfl, ?_⟩
  unfold ETBus.processDoc
  have hmatch' : (bus.onCommand none)._addrMatchesMe doc = true := hmatch
  simp [hv, ht, hmatch', ETBus.onCommand]

/-! ## Oversized envelopes and the 512-byte send buffer -/

/-- A `state` envelope whose payload holds a 600-character string, so its
serialization cannot fit the 512-byte send buffer. -/
def bigEnvelope : Envelope :=
  { v := 1, etype := "state", eid := "lamp1", eclass := "switch",
    payload := some (.cons "data" (.str (String.mk (List.replicate 600 'a'))) .nil) }

/-- The document `sendState` would hand to `_send` for `bigEnvelope`. -/
def bigDoc : Json := envelopeJson bigEnvelope

set_option maxRecDepth 40000 in
/-- C6 counterexample: an outbound envelope whose serialized form exceeds
512 bytes is not rejected — `_send` still transmits a non-empty buffer,
and that buffer is not the envelope's serialization (it has been cut at
the 511-character boundary, in the middle of the payload string). -/
theorem send_truncation_counterexample :
    512 < (serializeJson bigDoc).length ∧ _send bigDoc ≠ [] ∧
      _send bigDoc ≠ serializeJson bigDoc := by
  refine ⟨?_, ?_, ?_⟩ <;> decide

/-- C6 amended: for every document whose serialization exceeds the 511
characters `serializeJson` can write into the 512-byte buffer, `_send`
transmits exactly 511 bytes — a truncated, non-empty buffer differing
from the full serialization — instead of failing. -/
theorem oversized_send_truncated (doc : Json)
    (h : 511 < (serializeJson doc).length) :
    _send doc ≠ [] ∧ (_send doc).length = 511 ∧ _send doc ≠ serializeJson doc := by
  have hlen : (_send doc).length = 511 := by
    show ((serializeJson doc).take 511).length = 511
    rw [List.length_take]
    omega
  refine ⟨?_, hlen, ?_⟩
  · intro hnil
    rw [hnil] at hlen
    simp at hlen
  · intro heq
    have hcongr := congrArg List.length heq
    rw [hlen] at hcongr
    omega

set_option maxRecDepth 40000 in
/-- Witness for the amended C6 statement at the concrete oversized
envelope. -/
theorem oversized_send_truncated_witness :
    _send bigDoc ≠ [] ∧ (_send bigDoc).length = 511 ∧
      _send bigDoc ≠ serializeJson bigDoc :=
  oversized_send_truncated bigDoc (by decide)

/-- C7: encoding a valid envelope that fits the 512-byte inbound buffer
(511 readable bytes) and decoding the resulting bytes, as `loop` does,
recovers a structurally equal document — every field value preserved. -/
theorem encode_decode_roundtrip (e : Envelope) (hval : validEnvelope e)
    (hsize : (encodeEnvelope e).length ≤ 511) :
    decodeInbound (encodeEnvelope e) = some (envelopeJson e) := by
  have htake : (encodeEnvelope e).take 511 = encodeEnvelope e :=
    List.take_of_length_le hsize
  rw [decodeInbound, htake]
  apply parseJson_encode
  intro pms hpms
  obtain ⟨-, -, -, -, hp⟩ := hval
  rw [hpms] at hp
  exact hp

/-- Witness envelope for the round trip: the spec's own `state` example. -/
def lampEnvelope : Envelope :=
  { v := 1, etype := "state", eid := "lamp1", eclass := "switch",
    payload := some (.cons "on" (.bool true) .nil) }

/-- Witness for C7 at a concrete valid envelope. -/
theorem encode_decode_roundtrip_witness :
    decodeInbound (encodeEnvelope lampEnvelope) = some (envelopeJson lampEnvelope) :=
  encode_decode_roundtrip lampEnvelope ⟨rfl, by decide, by decide, by decide, rfl⟩
    (by decide)

/-! ## Concrete instances for the universally quantified statements -/

/-- An initialized endpoint with a registered command handler. -/
def cmdBus : ETBus :=
  { _id := some "lamp1", _class := some "switch", _name := some "Hall Lamp",
    _fw := some "1.0", _cmdHandler := some () }

/-- Sample collaborator readings. -/
def sampleEnv : Env := { millis := 4200, rssi := -40 }

/-- An inbound command envelope addressed to `lamp1`. -/
def cmdDoc : Json :=
  .obj (.cons "v" (.num 1) (.cons "type" (.str "command")
    (.cons "id" (.str "lamp1")
      (.cons "payload" (.obj (.cons "on" (.bool true) .nil)) .nil))))

/-- Witness for C1 at a matching concrete command envelope. -/
theorem loop_command_dispatch_iff_witness :
    cmdBus.processDoc sampleEnv cmdDoc =
      [Effect.callback (some "switch") (some (.cons "on" (.bool true) .nil))] := by
  rw [loop_command_dispatch_iff cmdBus sampleEnv cmdDoc rfl rfl rfl]
  rfl

/-- The bytes of `'{'"v":2'}'`, a version-2 envelope. -/
def rejBuf : List Char := ['\x7b', '"', 'v', '"', ':', '2', '\x7d']

/-- The document `rejBuf` decodes to. -/
def rejDoc : Json := .obj (.cons "v" (.num 2) .nil)

/-- Witness for C2 at a concrete version-2 buffer. -/
theorem loop_rejects_bad_version_or_type_witness :
    cmdBus.loop sampleEnv (some rejBuf) = [] :=
  loop_rejects_bad_version_or_type cmdBus sampleEnv rejBuf rejDoc rfl (Or.inl rfl)

/-- A broadcast ping envelope. -/
def pingDoc : Json :=
  .obj (.cons "v" (.num 1) (.cons "type" (.str "ping") .nil))

/-- Witness for C3 at a concrete ping. -/
theorem loop_ping_answers_pong_witness :
    cmdBus.processDoc sampleEnv pingDoc =
      [Effect.sent (.obj (.cons "v" (.num 1) (.cons "type" (.str "pong")
        (.cons "id" (.str "lamp1") (.cons "class" (.str "switch")
          (.cons "payload" (.obj (.cons "uptime" (.num 4)
            (.cons "rssi" (.num (-40)) .nil))) .nil))))))] := by
  have h := loop_ping_answers_pong cmdBus sampleEnv pingDoc "lamp1" "switch" rfl rfl rfl rfl
  rw [h]
  rfl

/-- Witness for C4: the spec's `publishState` example on identity
`lamp1`/`switch` with payload `on := true`. -/
theorem sendState_emits_state_envelope_witness :
    cmdBus.sendState (.cons "on" (.bool true) .nil) =
      [Effect.sent (.obj (.cons "v" (.num 1) (.cons "type" (.str "state")
        (.cons "id" (.str "lamp1") (.cons "class" (.str "switch")
          (.cons "payload" (.obj (.cons "on" (.bool true) .nil)) .nil))))))] :=
  sendState_emits_state_envelope cmdBus "lamp1" "switch" (.cons "on" (.bool true) .nil)
    rfl rfl (by simp [memberKeys])

/-- Witness for C8 at a concrete endpoint and arguments. -/
theorem emitters_carry_identity_witness :
    ownTagged "lamp1" "switch" cmdBus.sendDiscover ∧
    ownTagged "lamp1" "switch" (cmdBus.sendPong sampleEnv) ∧
    ownTagged "lamp1" "switch" (cmdBus.sendState (.cons "on" (.bool true) .nil)) ∧
    ownTagged "lamp1" "switch" (cmdBus.sendSwitchState true) ∧
    ownTagged "lamp1" "switch" (cmdBus.sendRgbState true 255 128 0 200) :=
  emitters_carry_identity cmdBus sampleEnv (.cons "on" (.bool true) .nil)
    true 255 128 0 200 "lamp1" "switch" rfl rfl

/-- Witness for C10: un-registering on `cmdBus` and processing the
matching command envelope. -/
theorem onCommand_null_unregisters_witness :
    cmdBus.onCommand none = { cmdBus with _cmdHandler := none } ∧
    (cmdBus.onCommand none).processDoc sampleEnv cmdDoc = [] :=
  onCommand_null_unregisters cmdBus sampleEnv cmdDoc rfl rfl rfl
